import Mathlib

/-!
Shallow embedding of the `AudioPlayer` React component (Vantus repository):
the segment locator `activeParagraphIndex`, the PCM16 decoder inside
`initAudio`, and the transport state machine (`handlePlay`, `handlePause`,
the `updateProgress` loop).  Numbers held in component state are modelled
as rationals; the two places where JavaScript float semantics are
observable (division by a zero `totalChars`, comparison with `NaN`) are
modelled explicitly.
-/

namespace Vantus

/-! ## JavaScript arithmetic fragments needed by the segment locator -/

/-- Result of a JavaScript floating-point division as observable in the
segment locator: a finite value, a signed infinity, or `NaN`. -/
inductive JSVal where
  | num (q : ℚ)
  | posInf
  | negInf
  | nan
deriving Repr, DecidableEq

/-- JavaScript division `x / y` on finite operands: `0 / 0` is `NaN`,
`x / 0` for nonzero `x` is a signed infinity, otherwise exact division. -/
def jsDiv (x y : ℚ) : JSVal :=
  if y = 0 then
    if x = 0 then JSVal.nan
    else if 0 < x then JSVal.posInf
    else JSVal.negInf
  else JSVal.num (x / y)

/-- JavaScript comparison `x <= v` for finite `x`: any comparison with
`NaN` is false, everything is `<=` positive infinity. -/
def jsLe (x : ℚ) (v : JSVal) : Bool :=
  match v with
  | JSVal.num q => decide (x ≤ q)
  | JSVal.posInf => true
  | JSVal.negInf => false
  | JSVal.nan => false

/-! ## The segment locator (`activeParagraphIndex`, part_000 lines 21-38) -/

/-- `script.reduce((acc, p) => acc + p.length, 0)`: the total character
count of the script. -/
def totalCharsOf (script : List String) : ℕ :=
  script.foldl (fun acc p => acc + p.length) 0

/-- The `for` loop of `activeParagraphIndex`: walks the remaining
script entries carrying the running index `i` and `charCountSoFar`,
returning the first index whose end ratio bounds `progress`, or `none`
when the loop falls through.  The source's locals `pLen = p.length` and
`pEndRatio = (charCountSoFar + pLen) / totalChars` are inlined. -/
def activeLoop (progress : ℚ) (totalChars : ℚ) :
    List String → ℕ → ℚ → Option ℕ
  | [], _, _ => none
  | p :: rest, i, charCountSoFar =>
    if jsLe progress (jsDiv (charCountSoFar + (p.length : ℚ)) totalChars) then some i
    else activeLoop progress totalChars rest (i + 1) (charCountSoFar + (p.length : ℚ))

/-- `activeParagraphIndex` (part_000 lines 21-38).  Returns `0` when the
duration is zero (the `!duration` guard); otherwise computes
`progress = currentTime / duration` and walks the script; the fall-through
return of `script.length - 1` can be `-1` on an empty script, so the
result lives in `ℤ`. -/
def activeParagraphIndex (currentTime duration : ℚ) (script : List String) : ℤ :=
  if duration = 0 then 0
  else
    let progress := currentTime / duration
    let totalChars : ℚ := totalCharsOf script
    match activeLoop progress totalChars script 0 0 with
    | some i => (i : ℤ)
    | none => (script.length : ℤ) - 1

/-- Character count of the first `j` script entries — the value of
`charCountSoFar` when the loop reaches index `j`. -/
def charCount (script : List String) (j : ℕ) : ℕ :=
  ((script.take j).map String.length).sum

/-- The value `activeParagraphIndex` makes of the loop's outcome for a
script of length `L`: the found index, or the fall-through `L - 1`. -/
def loopResult (L : ℕ) : Option ℕ → ℤ
  | some i => (i : ℤ)
  | none => (L : ℤ) - 1

/-! ## The PCM16 decoder (`initAudio`, part_000 lines 49-65) -/

/-- Reinterpret a 16-bit word `w < 65536` as a signed integer
(two's complement), as `Int16Array` element access does. -/
def toInt16 (w : ℕ) : ℤ :=
  if w < 32768 then (w : ℤ) else (w : ℤ) - 65536

/-- Little-endian pairing of the decoded bytes into 16-bit samples; a
trailing unpaired byte is never reached because construction guards the
byte length (see `int16ArrayOfBuffer`). -/
def int16OfBytes : List ℕ → List ℤ
  | lo :: hi :: rest => toInt16 (lo % 256 + 256 * (hi % 256)) :: int16OfBytes rest
  | _ => []

/-- `new Int16Array(bytes.buffer)`: per ECMAScript, constructing a typed
array view over a whole buffer whose byte length is not a multiple of the
element size (2) throws a `RangeError` (`none` here); otherwise the bytes
are read as little-endian 16-bit pairs. -/
def int16ArrayOfBuffer (bytes : List ℕ) : Option (List ℤ) :=
  if bytes.length % 2 = 0 then some (int16OfBytes bytes) else none

/-- `channelData[i] = dataInt16[i] / 32768.0` (part_000 line 59). -/
def normalizeSample (v : ℤ) : ℚ := (v : ℚ) / 32768

/-- The decode section of `initAudio` from the raw byte list onward:
`none` means the thrown `RangeError` lands in the surrounding
`try`/`catch` (which only logs), so no buffer is produced. -/
def decodeAudio (bytes : List ℕ) : Option (List ℚ) :=
  (int16ArrayOfBuffer bytes).map (fun dataInt16 => dataInt16.map normalizeSample)

/-! ## The transport state machine (part_000 lines 77-129) -/

/-- The component state touched by the transport handlers: `isPlaying`,
`currentTime`, `duration`, the `startTimeRef` anchor, and presence flags
for `audioSourceRef`, `audioBuffer` and `audioContextRef`. -/
structure PlayerState where
  isPlaying : Bool
  currentTime : ℚ
  duration : ℚ
  startTime : ℚ
  hasSource : Bool
  hasBuffer : Bool
  hasCtx : Bool
deriving Repr, DecidableEq

/-- The offset passed to `source.start(0, offset)`:
`currentTime >= duration ? 0 : currentTime` (part_000 line 114). -/
def playOffset (s : PlayerState) : ℚ :=
  if s.currentTime ≥ s.duration then 0 else s.currentTime

/-- `handlePlay` (part_000 lines 102-121) sampled at audio-clock time
`clock`: bails out without a buffer or context; otherwise creates a
source, records the anchor `startTimeRef = clock - offset` and starts
playing.  (Resuming a suspended context does not touch modelled state.) -/
def handlePlay (clock : ℚ) (s : PlayerState) : PlayerState :=
  if !s.hasBuffer || !s.hasCtx then s
  else
    { s with startTime := clock - playOffset s, hasSource := true, isPlaying := true }

/-- One tick of `updateProgress` (part_000 lines 79-92) at audio-clock
time `clock`: returns the new state and whether another animation frame
is requested. -/
def updateProgress (clock : ℚ) (s : PlayerState) : PlayerState × Bool :=
  if s.isPlaying && s.hasCtx then
    let elapsed := clock - s.startTime
    if elapsed ≤ s.duration then
      ({ s with currentTime := min elapsed s.duration }, true)
    else
      ({ s with isPlaying := false, currentTime := s.duration }, false)
  else (s, false)

/-- `handlePause` (part_000 lines 123-129): stops and clears the source
node and clears `isPlaying`, only when a source node exists. -/
def handlePause (s : PlayerState) : PlayerState :=
  if s.hasSource then { s with hasSource := false, isPlaying := false } else s

/-! ## Lemmas about the segment locator -/

lemma totalCharsOf_eq_sum (script : List String) :
    totalCharsOf script = (script.map String.length).sum := by
  rw [totalCharsOf, List.sum_eq_foldl, List.foldl_map]

lemma charCount_zero (script : List String) : charCount script 0 = 0 := rfl

lemma charCount_cons (p0 : String) (rest : List String) (j : ℕ) :
    charCount (p0 :: rest) (j + 1) = p0.length + charCount rest j := by
  simp [charCount, List.take_succ_cons]

lemma charCount_succ (script : List String) (j : ℕ) (hj : j < script.length) :
    charCount script (j + 1) = charCount script j + (script.getD j "").length := by
  induction script generalizing j with
  | nil => simp at hj
  | cons p0 rest ih =>
    cases j with
    | zero => simp [charCount_cons, charCount_zero, charCount]
    | succ k =>
      have hk : k < rest.length := by simpa using hj
      rw [charCount_cons, charCount_cons, ih k hk]
      simp [List.getD_cons_succ]
      omega

lemma jsLe_jsDiv (x n t : ℚ) (ht : t ≠ 0) :
    jsLe x (jsDiv n t) = decide (x ≤ n / t) := by
  simp [jsDiv, jsLe, ht]

lemma jsLe_mono {p1 p2 : ℚ} (h : p1 ≤ p2) {v : JSVal} (h2 : jsLe p2 v = true) :
    jsLe p1 v = true := by
  cases v <;> simp_all [jsLe] <;> linarith

lemma activeLoop_finds (p t : ℚ) (rest : List String) :
    ∀ (i : ℕ) (c : ℚ) (j : ℕ), j < rest.length →
      jsLe p (jsDiv (c + (charCount rest (j + 1) : ℚ)) t) = true →
      (∀ k, k < j → jsLe p (jsDiv (c + (charCount rest (k + 1) : ℚ)) t) = false) →
      activeLoop p t rest i c = some (i + j) := by
  induction rest with
  | nil => intro i c j hj; simp at hj
  | cons p0 rest ih =>
    intro i c j hj hcond hmin
    cases j with
    | zero =>
      have h1 : charCount (p0 :: rest) 1 = p0.length := by
        simp [charCount_cons, charCount_zero]
      rw [h1] at hcond
      simp [activeLoop, hcond]
    | succ k =>
      have h1 : charCount (p0 :: rest) 1 = p0.length := by
        simp [charCount_cons, charCount_zero]
      have h0 : jsLe p (jsDiv (c + (p0.length : ℚ)) t) = false := by
        have := hmin 0 (Nat.succ_pos k)
        rwa [h1] at this
      have hk : k < rest.length := by simpa using hj
      have hcast : ∀ m : ℕ, c + ((charCount (p0 :: rest) (m + 1 + 1) : ℕ) : ℚ)
          = (c + (p0.length : ℚ)) + ((charCount rest (m + 1) : ℕ) : ℚ) := by
        intro m
        rw [charCount_cons]
        push_cast
        ring
      rw [hcast k] at hcond
      have hmin2 : ∀ m, m < k →
          jsLe p (jsDiv ((c + (p0.length : ℚ)) + (charCount rest (m + 1) : ℚ)) t) = false := by
        intro m hm
        have := hmin (m + 1) (by omega)
        rwa [hcast m] at this
      have := ih (i + 1) (c + (p0.length : ℚ)) k hk hcond hmin2
      simp only [activeLoop, h0, Bool.false_eq_true, if_false]
      rw [this]
      congr 1
      omega

lemma activeLoop_none (p t : ℚ) (rest : List String) :
    ∀ (i : ℕ) (c : ℚ),
      (∀ k, k < rest.length → jsLe p (jsDiv (c + (charCount rest (k + 1) : ℚ)) t) = false) →
      activeLoop p t rest i c = none := by
  induction rest with
  | nil => intro i c _; simp [activeLoop]
  | cons p0 rest ih =>
    intro i c h
    have h1 : charCount (p0 :: rest) 1 = p0.length := by
      simp [charCount_cons, charCount_zero]
    have h0 : jsLe p (jsDiv (c + (p0.length : ℚ)) t) = false := by
      have := h 0 (by simp)
      rwa [h1] at this
    have hcast : ∀ m : ℕ, c + ((charCount (p0 :: rest) (m + 1 + 1) : ℕ) : ℚ)
        = (c + (p0.length : ℚ)) + ((charCount rest (m + 1) : ℕ) : ℚ) := by
      intro m
      rw [charCount_cons]
      push_cast
      ring
    have htail : ∀ k, k < rest.length →
        jsLe p (jsDiv ((c + (p0.length : ℚ)) + (charCount rest (k + 1) : ℚ)) t) = false := by
      intro k hk
      have := h (k + 1) (by simp; omega)
      rwa [hcast k] at this
    simp only [activeLoop, h0, Bool.false_eq_true, if_false]
    exact ih (i + 1) (c + (p0.length : ℚ)) htail

lemma activeLoop_bounds (p t : ℚ) (rest : List String) :
    ∀ (i : ℕ) (c : ℚ) (j : ℕ),
      activeLoop p t rest i c = some j → i ≤ j ∧ j < i + rest.length := by
  induction rest with
  | nil => intro i c j h; simp [activeLoop] at h
  | cons p0 rest ih =>
    intro i c j h
    rw [activeLoop] at h
    split at h
    · obtain rfl : i = j := Option.some.inj h
      simp
    · obtain ⟨h1, h2⟩ := ih (i + 1) (c + (p0.length : ℚ)) j h
      constructor
      · omega
      · simp only [List.length_cons]; omega

lemma activeParagraphIndex_eq (currentTime d : ℚ) (script : List String) (hd : d ≠ 0) :
    activeParagraphIndex currentTime d script =
      loopResult script.length
        (activeLoop (currentTime / d) ((totalCharsOf script : ℕ) : ℚ) script 0 0) := by
  simp only [activeParagraphIndex, if_neg hd]
  cases h : activeLoop (currentTime / d) ((totalCharsOf script : ℕ) : ℚ) script 0 0 <;>
    simp [loopResult, h]

lemma loopResult_lower (p t : ℚ) (L : ℕ) (rest : List String) :
    ∀ (i : ℕ) (c : ℚ), i + rest.length = L →
      (i : ℤ) - 1 ≤ loopResult L (activeLoop p t rest i c) := by
  induction rest with
  | nil =>
    intro i c hL
    simp only [List.length_nil, Nat.add_zero] at hL
    subst hL
    simp [activeLoop, loopResult]
  | cons p0 rest ih =>
    intro i c hL
    rw [activeLoop]
    split
    · simp [loopResult]
    · have := ih (i + 1) (c + (p0.length : ℚ)) (by simp at hL ⊢; omega)
      have hcast : ((i + 1 : ℕ) : ℤ) - 1 = (i : ℤ) := by push_cast; ring
      omega

lemma loopResult_mono (t : ℚ) {p1 p2 : ℚ} (hp : p1 ≤ p2) (L : ℕ) (rest : List String) :
    ∀ (i : ℕ) (c : ℚ), i + rest.length = L →
      loopResult L (activeLoop p1 t rest i c) ≤ loopResult L (activeLoop p2 t rest i c) := by
  induction rest with
  | nil => intro i c _; simp [activeLoop]
  | cons p0 rest ih =>
    intro i c hL
    have hLtail : (i + 1) + rest.length = L := by simp at hL; omega
    by_cases h2 : jsLe p2 (jsDiv (c + (p0.length : ℚ)) t) = true
    · have h1 : jsLe p1 (jsDiv (c + (p0.length : ℚ)) t) = true := jsLe_mono hp h2
      simp [activeLoop, h1, h2]
    · have h2f : jsLe p2 (jsDiv (c + (p0.length : ℚ)) t) = false := by
        simpa using h2
      by_cases h1 : jsLe p1 (jsDiv (c + (p0.length : ℚ)) t) = true
      · simp only [activeLoop, h1, if_true, h2f, Bool.false_eq_true, if_false]
        have := loopResult_lower p2 t L rest (i + 1) (c + (p0.length : ℚ)) hLtail
        have hcast : ((i + 1 : ℕ) : ℤ) - 1 = (i : ℤ) := by push_cast; ring
        have hsome : loopResult L (some i) = (i : ℤ) := rfl
        rw [hsome]
        omega
      · have h1f : jsLe p1 (jsDiv (c + (p0.length : ℚ)) t) = false := by
          simpa using h1
        simp only [activeLoop, h1f, h2f, Bool.false_eq_true, if_false]
        exact ih (i + 1) (c + (p0.length : ℚ)) hLtail

lemma activeLoop_total_zero (p : ℚ) (rest : List String) :
    ∀ i : ℕ, (∀ s ∈ rest, s.length = 0) → activeLoop p 0 rest i 0 = none := by
  induction rest with
  | nil => intro i _; simp [activeLoop]
  | cons p0 rest ih =>
    intro i hall
    have h0 : p0.length = 0 := hall p0 (by simp)
    have htail : ∀ s ∈ rest, s.length = 0 := fun s hs => hall s (by simp [hs])
    have hstep : activeLoop p 0 (p0 :: rest) i 0 = activeLoop p 0 rest (i + 1) 0 := by
      simp [activeLoop, h0, jsDiv, jsLe]
    rw [hstep]
    exact ih (i + 1) htail

/-! ## Claim theorems: the segment locator -/

/-- C1: for `totalChars > 0` and `duration > 0`, `activeParagraphIndex`
computes `progress = currentTime / duration` and returns the first index
`i` with `progress <= (charCountSoFar + len i) / totalChars` (upper
boundary inclusive), falling through to `script.length - 1` when no index
qualifies; in particular for segment lengths `[4, 6]`, progress `0.4`
yields index `0`, progress `0.4000001` yields `1`, and progress `1.0`
yields `1`. -/
theorem activeParagraphIndex_first_match (script : List String) (t d : ℚ)
    (htot : 0 < totalCharsOf script) (hd : 0 < d) :
    ((∃ i : ℕ, i < script.length ∧
        activeParagraphIndex t d script = (i : ℤ) ∧
        t / d ≤ ((charCount script i : ℚ) + ((script.getD i "").length : ℚ))
          / ((totalCharsOf script : ℕ) : ℚ) ∧
        (∀ j : ℕ, j < i →
          ¬ (t / d ≤ ((charCount script j : ℚ) + ((script.getD j "").length : ℚ))
              / ((totalCharsOf script : ℕ) : ℚ)))) ∨
      (activeParagraphIndex t d script = (script.length : ℤ) - 1 ∧
        (∀ j : ℕ, j < script.length →
          ¬ (t / d ≤ ((charCount script j : ℚ) + ((script.getD j "").length : ℚ))
              / ((totalCharsOf script : ℕ) : ℚ))))) ∧
    activeParagraphIndex (4/10) 1 ["abcd", "abcdef"] = 0 ∧
    activeParagraphIndex (4000001/10000000) 1 ["abcd", "abcdef"] = 1 ∧
    activeParagraphIndex 1 1 ["abcd", "abcdef"] = 1 := by
  have h4 : ("abcd" : String).length = 4 := by decide
  have h6 : ("abcdef" : String).length = 6 := by decide
  refine ⟨?_,
    by norm_num [activeParagraphIndex, activeLoop, jsDiv, jsLe, totalCharsOf, h4, h6],
    by norm_num [activeParagraphIndex, activeLoop, jsDiv, jsLe, totalCharsOf, h4, h6],
    by norm_num [activeParagraphIndex, activeLoop, jsDiv, jsLe, totalCharsOf, h4, h6]⟩
  have hT : ((totalCharsOf script : ℕ) : ℚ) ≠ 0 := by
    exact_mod_cast htot.ne'
  have hcast : ∀ j : ℕ, j < script.length →
      ((charCount script (j + 1) : ℕ) : ℚ)
        = (charCount script j : ℚ) + ((script.getD j "").length : ℚ) := by
    intro j hj
    rw [charCount_succ script j hj]
    push_cast
    ring
  by_cases hex : ∃ j, j < script.length ∧
      t / d ≤ ((charCount script j : ℚ) + ((script.getD j "").length : ℚ))
        / ((totalCharsOf script : ℕ) : ℚ)
  · left
    obtain ⟨hj0len, hPj0⟩ := Nat.find_spec hex
    refine ⟨Nat.find hex, hj0len, ?_, hPj0, ?_⟩
    · rw [activeParagraphIndex_eq t d script hd.ne']
      rw [activeLoop_finds (t / d) _ script 0 0 (Nat.find hex) hj0len ?_ ?_]
      · simp [loopResult]
      · rw [jsLe_jsDiv _ _ _ hT, decide_eq_true_iff, zero_add, hcast _ hj0len]
        exact hPj0
      · intro k hk
        rw [jsLe_jsDiv _ _ _ hT, decide_eq_false_iff_not, zero_add,
          hcast _ (by omega)]
        exact fun hPk => Nat.find_min hex hk ⟨by omega, hPk⟩
    · exact fun j hj hPj => Nat.find_min hex hj ⟨by omega, hPj⟩
  · right
    have hex2 : ∀ j : ℕ, j < script.length →
        ¬ (t / d ≤ ((charCount script j : ℚ) + ((script.getD j "").length : ℚ))
            / ((totalCharsOf script : ℕ) : ℚ)) := by
      intro j hj hP
      exact hex ⟨j, hj, hP⟩
    have hnone := activeLoop_none (t / d) ((totalCharsOf script : ℕ) : ℚ) script 0 0 (by
      intro k hk
      rw [jsLe_jsDiv _ _ _ hT, decide_eq_false_iff_not, zero_add, hcast _ hk]
      exact hex2 k hk)
    refine ⟨?_, hex2⟩
    rw [activeParagraphIndex_eq t d script hd.ne', hnone]
    rfl

/-- Witness for C1 at segment lengths `[4, 6]`, progress `0.4`. -/
theorem activeParagraphIndex_first_match_witness :
    0 < totalCharsOf ["abcd", "abcdef"] ∧ (0 : ℚ) < 1 ∧
    activeParagraphIndex (4/10) 1 ["abcd", "abcdef"] = 0 :=
  ⟨by decide, zero_lt_one,
    (activeParagraphIndex_first_match ["abcd", "abcdef"] (4/10) 1
      (by decide) zero_lt_one).2.1⟩

/-- C2 counterexample: with two empty segments (`totalChars = 0`) and
duration `1 > 0`, the locator returns `1` (= `script.length - 1`), not
the claimed safe default `0`. -/
theorem activeParagraphIndex_total_zero_cex :
    activeParagraphIndex 0 1 ["", ""] ≠ 0 := by
  have h0 : ("" : String).length = 0 := by decide
  norm_num [activeParagraphIndex, activeLoop, jsDiv, jsLe, totalCharsOf, h0]

/-- C2 (amended): with `totalChars = 0` and `duration > 0`, every loop
comparison is against `0 / 0 = NaN` and fails, so the locator returns
`script.length - 1` (hence `-1` on an empty script), not `0`; it is a
total function, so no exception reaches the rendering path. -/
theorem activeParagraphIndex_total_zero (script : List String) (t d : ℚ)
    (htot : totalCharsOf script = 0) (hd : 0 < d) :
    activeParagraphIndex t d script = (script.length : ℤ) - 1 := by
  have hall : ∀ s ∈ script, s.length = 0 := by
    rw [totalCharsOf_eq_sum] at htot
    intro s hs
    exact List.sum_eq_zero_iff.mp htot s.length (List.mem_map_of_mem _ hs)
  rw [activeParagraphIndex_eq t d script hd.ne']
  have hz : ((totalCharsOf script : ℕ) : ℚ) = 0 := by
    rw [htot]; simp
  rw [hz, activeLoop_total_zero (t / d) script 0 hall]
  rfl

/-- Witness for the amended C2 on `["", ""]`. -/
theorem activeParagraphIndex_total_zero_witness :
    totalCharsOf ["", ""] = 0 ∧ (0 : ℚ) < 1 ∧
    activeParagraphIndex 0 1 ["", ""] = (List.length ["", ""] : ℤ) - 1 :=
  ⟨by decide, zero_lt_one,
    activeParagraphIndex_total_zero ["", ""] 0 1 (by decide) zero_lt_one⟩

/-- C6: for fixed segments with `totalChars > 0` and fixed `duration > 0`,
`activeParagraphIndex` is monotone non-decreasing in `currentTime` on
`[0, duration]`. -/
theorem activeParagraphIndex_mono (script : List String) (d t1 t2 : ℚ)
    (htot : 0 < totalCharsOf script) (hd : 0 < d)
    (h0 : 0 ≤ t1) (h12 : t1 ≤ t2) (h2 : t2 ≤ d) :
    activeParagraphIndex t1 d script ≤ activeParagraphIndex t2 d script := by
  rw [activeParagraphIndex_eq t1 d script hd.ne', activeParagraphIndex_eq t2 d script hd.ne']
  have hq : t1 / d ≤ t2 / d := by gcongr
  exact loopResult_mono _ hq script.length script 0 0 (by simp)

/-- Witness for C6 at `script = ["ab"]`, `t1 = 0`, `t2 = 1`, `d = 1`. -/
theorem activeParagraphIndex_mono_witness :
    activeParagraphIndex 0 1 ["ab"] ≤ activeParagraphIndex 1 1 ["ab"] :=
  activeParagraphIndex_mono ["ab"] 1 0 1 (by decide) zero_lt_one
    (le_refl 0) zero_le_one (le_refl 1)

/-- C9: for a nonempty script with `totalChars > 0` and `duration > 0`,
the locator's result lies in `[0, script.length - 1]` for every
`currentTime`, including times below `0` or beyond `duration`. -/
theorem activeParagraphIndex_in_range (script : List String) (t d : ℚ)
    (hne : script ≠ []) (htot : 0 < totalCharsOf script) (hd : 0 < d) :
    0 ≤ activeParagraphIndex t d script ∧
      activeParagraphIndex t d script ≤ (script.length : ℤ) - 1 := by
  rw [activeParagraphIndex_eq t d script hd.ne']
  have hlen : 1 ≤ script.length := List.length_pos.mpr hne
  cases h : activeLoop (t / d) ((totalCharsOf script : ℕ) : ℚ) script 0 0 with
  | none =>
    simp only [loopResult]
    omega
  | some j =>
    obtain ⟨h1, h2⟩ := activeLoop_bounds _ _ script 0 0 j h
    simp only [loopResult]
    omega

/-- Witness for C9 at `script = ["ab"]`, `t = 5`, `d = 1` (time past the
end of the track). -/
theorem activeParagraphIndex_in_range_witness :
    0 ≤ activeParagraphIndex 5 1 ["ab"] ∧
      activeParagraphIndex 5 1 ["ab"] ≤ (List.length ["ab"] : ℤ) - 1 :=
  activeParagraphIndex_in_range ["ab"] 5 1 (by decide) (by decide) zero_lt_one

/-! ## Claim theorems: transport state machine and decoder -/

/-- C3: after play from offset `0`, advancing the audio clock by
`dt < duration` makes the elapsed time (clock minus the recorded anchor)
equal `dt`; the progress tick publishes it, pausing retains it, and after
resuming and advancing by `dt2` the elapsed time is `dt + dt2`
(cumulative, not reset). -/
theorem pause_resume_preserves (s0 : PlayerState) (t0 t1 d dt dt2 : ℚ)
    (hb : s0.hasBuffer = true) (hc : s0.hasCtx = true)
    (hct : s0.currentTime = 0) (hd : s0.duration = d)
    (hdpos : 0 < d) (hdt0 : 0 ≤ dt) (hdtlt : dt < d)
    (hdt20 : 0 ≤ dt2) (hsum : dt + dt2 ≤ d) :
    (t0 + dt) - (handlePlay t0 s0).startTime = dt ∧
    ((updateProgress (t0 + dt) (handlePlay t0 s0)).1).currentTime = dt ∧
    (handlePause ((updateProgress (t0 + dt) (handlePlay t0 s0)).1)).currentTime = dt ∧
    (t1 + dt2) - (handlePlay t1
      (handlePause ((updateProgress (t0 + dt) (handlePlay t0 s0)).1))).startTime
      = dt + dt2 ∧
    ((updateProgress (t1 + dt2) (handlePlay t1
      (handlePause ((updateProgress (t0 + dt) (handlePlay t0 s0)).1)))).1).currentTime
      = dt + dt2 := by
  have hoff0 : playOffset s0 = 0 := by
    simp [playOffset, hct, hd]
  have hs1 : handlePlay t0 s0
      = { s0 with startTime := t0, hasSource := true, isPlaying := true } := by
    simp [handlePlay, hb, hc, hoff0]
  have he1 : (t0 + dt) - t0 = dt := by ring
  have hs2 : (updateProgress (t0 + dt) (handlePlay t0 s0)).1
      = { s0 with startTime := t0, hasSource := true, isPlaying := true, currentTime := dt } := by
    rw [hs1]
    simp [updateProgress, hc, hd, he1, hdtlt.le, min_eq_left hdtlt.le]
  have hs3 : handlePause ((updateProgress (t0 + dt) (handlePlay t0 s0)).1)
      = { s0 with startTime := t0, hasSource := false, isPlaying := false, currentTime := dt } := by
    rw [hs2]
    simp [handlePause]
  have hs4 : handlePlay t1
      (handlePause ((updateProgress (t0 + dt) (handlePlay t0 s0)).1))
      = { s0 with startTime := t1 - dt, hasSource := true, isPlaying := true, currentTime := dt } := by
    rw [hs3]
    simp [handlePlay, hb, hc, playOffset, hd, not_le.mpr hdtlt]
  have he2 : (t1 + dt2) - (t1 - dt) = dt + dt2 := by ring
  have hs5 : (updateProgress (t1 + dt2) (handlePlay t1
      (handlePause ((updateProgress (t0 + dt) (handlePlay t0 s0)).1)))).1
      = { s0 with startTime := t1 - dt, hasSource := true, isPlaying := true, currentTime := dt + dt2 } := by
    rw [hs4]
    simp [updateProgress, hc, hd, he2, hsum, min_eq_left hsum]
  refine ⟨?_, ?_, ?_, ?_, ?_⟩
  · rw [hs1]; ring
  · rw [hs2]
  · rw [hs3]
  · rw [hs4]; ring
  · rw [hs5]

/-- Witness for C3: `d = 10`, `dt = 3`, `dt2 = 4`, play at clock `0`,
resume at clock `20`. -/
theorem pause_resume_preserves_witness :
    ((updateProgress ((20 : ℚ) + 4) (handlePlay 20
      (handlePause ((updateProgress ((0 : ℚ) + 3)
        (handlePlay 0 ⟨false, 0, 10, 0, false, true, true⟩)).1)))).1).currentTime
      = 3 + 4 :=
  (pause_resume_preserves ⟨false, 0, 10, 0, false, true, true⟩ 0 20 10 3 4
    rfl rfl rfl rfl (by norm_num) (by norm_num) (by norm_num) (by norm_num)
    (by norm_num)).2.2.2.2

/-- C4: while Playing, a progress tick with elapsed time within the
duration publishes `currentTime = min elapsed duration` and reschedules;
once elapsed exceeds the duration it clears `isPlaying`, publishes
`currentTime = duration`, does not reschedule, and any later tick on the
stopped state mutates nothing and never reschedules. -/
theorem updateProgress_end_detection (clock : ℚ) (s : PlayerState)
    (hp : s.isPlaying = true) (hc : s.hasCtx = true) :
    (clock - s.startTime ≤ s.duration →
      updateProgress clock s =
        ({ s with currentTime := min (clock - s.startTime) s.duration }, true)) ∧
    (s.duration < clock - s.startTime →
      updateProgress clock s =
        ({ s with isPlaying := false, currentTime := s.duration }, false) ∧
      ∀ c2 : ℚ, updateProgress c2 { s with isPlaying := false, currentTime := s.duration }
          = ({ s with isPlaying := false, currentTime := s.duration }, false)) := by
  refine ⟨?_, ?_⟩
  · intro h
    simp [updateProgress, hp, hc, h]
  · intro h
    refine ⟨?_, ?_⟩
    · simp [updateProgress, hp, hc, not_le.mpr h]
    · intro c2
      simp [updateProgress]

/-- Witness for C4 at clock `5` on a playing state with duration `10`. -/
theorem updateProgress_end_detection_witness :
    updateProgress 5 ⟨true, 0, 10, 0, true, true, true⟩ =
      ({ (⟨true, 0, 10, 0, true, true, true⟩ : PlayerState) with
          currentTime := min ((5 : ℚ) - 0) 10 }, true) :=
  (updateProgress_end_detection 5 ⟨true, 0, 10, 0, true, true, true⟩ rfl rfl).1
    (by norm_num)

/-- C5: with a buffer and context present, `handlePlay` clamps the start
offset to `0` when `currentTime >= duration` (replay from the beginning),
and otherwise starts at exactly the current offset; the anchor becomes
`clock - offset` accordingly. -/
theorem handlePlay_clamps (clock : ℚ) (s : PlayerState)
    (hb : s.hasBuffer = true) (hc : s.hasCtx = true) :
    (s.duration ≤ s.currentTime →
      playOffset s = 0 ∧ (handlePlay clock s).startTime = clock) ∧
    (s.currentTime < s.duration →
      playOffset s = s.currentTime ∧
        (handlePlay clock s).startTime = clock - s.currentTime) := by
  refine ⟨?_, ?_⟩
  · intro h
    have hoff : playOffset s = 0 := by simp [playOffset, h]
    exact ⟨hoff, by simp [handlePlay, hb, hc, hoff]⟩
  · intro h
    have hoff : playOffset s = s.currentTime := by simp [playOffset, not_le.mpr h]
    exact ⟨hoff, by simp [handlePlay, hb, hc, hoff]⟩

/-- Witness for C5 on a finished track (`currentTime = duration = 10`). -/
theorem handlePlay_clamps_witness :
    playOffset ⟨false, 10, 10, 0, false, true, true⟩ = 0 ∧
      (handlePlay 7 ⟨false, 10, 10, 0, false, true, true⟩).startTime = 7 :=
  (handlePlay_clamps 7 ⟨false, 10, 10, 0, false, true, true⟩ rfl rfl).1 (le_refl 10)

/-- C7: the decoder maps each little-endian byte pair to its signed
16-bit value divided by `32768` (not `32767`); in particular `-32768`
decodes to `-1`, `0` to `0`, and `32767` to `32767 / 32768`. -/
theorem decodeAudio_normalizes :
    (∀ lo hi : ℕ, decodeAudio [lo, hi] =
        some [((toInt16 (lo % 256 + 256 * (hi % 256)) : ℤ) : ℚ) / 32768]) ∧
    decodeAudio [0, 128] = some [-1] ∧
    decodeAudio [0, 0] = some [0] ∧
    decodeAudio [255, 127] = some [(32767 : ℚ) / 32768] := by
  refine ⟨?_, ?_, ?_, ?_⟩
  · intro lo hi
    simp [decodeAudio, int16ArrayOfBuffer, int16OfBytes, normalizeSample]
  all_goals
    norm_num [decodeAudio, int16ArrayOfBuffer, int16OfBytes, toInt16, normalizeSample]

/-- C8 counterexample: a 3-byte payload does not decode to
`floor(3 / 2) = 1` truncated sample; the decode fails outright. -/
theorem decodeAudio_odd_cex :
    decodeAudio [0, 0, 0] = none ∧ decodeAudio [0, 0, 0] ≠ some [(0 : ℚ)] := by
  exact ⟨rfl, by decide⟩

/-- C8 (amended): on a payload with odd byte length, the `Int16Array`
construction throws a `RangeError` (caught by `initAudio`'s `try`/`catch`,
which only logs), so the decode produces no samples at all rather than
truncating the final odd byte. -/
theorem decodeAudio_odd_fails (bytes : List ℕ) (h : bytes.length % 2 = 1) :
    decodeAudio bytes = none := by
  rw [decodeAudio, int16ArrayOfBuffer, if_neg (by omega)]
  rfl

/-- Witness for the amended C8 on the 3-byte payload `[0, 0, 0]`. -/
theorem decodeAudio_odd_fails_witness :
    List.length [0, 0, 0] % 2 = 1 ∧ decodeAudio [0, 0, 0] = none :=
  ⟨rfl, decodeAudio_odd_fails [0, 0, 0] rfl⟩

/-- C10: `handlePause` leaves `currentTime`, `duration`, the anchor and
the buffer/context flags unchanged (so the position survives a pause);
with a source node present it only stops/clears the source and clears
`isPlaying`, and with no source node it changes nothing at all. -/
theorem handlePause_frame (s : PlayerState) :
    ((handlePause s).currentTime = s.currentTime ∧
      (handlePause s).duration = s.duration ∧
      (handlePause s).startTime = s.startTime ∧
      (handlePause s).hasBuffer = s.hasBuffer ∧
      (handlePause s).hasCtx = s.hasCtx) ∧
    (s.hasSource = false → handlePause s = s) ∧
    (s.hasSource = true →
      handlePause s = { s with hasSource := false, isPlaying := false }) := by
  cases hsrc : s.hasSource <;> simp [handlePause, hsrc]

/-- Witness for C10: pausing with no active source changes nothing. -/
theorem handlePause_frame_witness :
    handlePause ⟨false, 1, 2, 3, false, true, true⟩
      = (⟨false, 1, 2, 3, false, true, true⟩ : PlayerState) :=
  (handlePause_frame ⟨false, 1, 2, 3, false, true, true⟩).2.1 rfl

end Vantus
